import Mathlib

/-!
Shallow embedding of the Aeron Miller Index core (src/models.py, src/scraper.py,
src/main.py) and proofs about it.  Python strings are modelled as `List Char`,
Python ints as `ℤ`/`ℕ`, Python floats as `ℚ` (exact rational arithmetic),
network I/O as an oracle function from call index to outcome, file I/O as
explicit `Option (List Str)` state (none = file does not exist, otherwise the
list of lines without trailing newlines).
-/

namespace AeronMiller

/-- Python strings are modelled as lists of characters. -/
abbrev Str := List Char

/-! ### Decimal rendering and parsing (models Python `str(int)` / `repr(float)`) -/

/-- Character for a single decimal digit value. -/
def digitChar (d : ℕ) : Char := Char.ofNat (48 + d)

/-- Numeric value of a decimal digit character. -/
def charVal (c : Char) : ℕ := c.toNat - 48

/-- Whether a character is a decimal digit. -/
def isDigitC (c : Char) : Bool := decide (48 ≤ c.toNat) && decide (c.toNat ≤ 57)

/-- Decimal rendering of a natural number, as Python `str` does. -/
def natChars (n : ℕ) : Str :=
  if n = 0 then ['0'] else ((Nat.digits 10 n).map digitChar).reverse

/-- Decimal rendering of an integer, as Python `str` does. -/
def intChars (i : ℤ) : Str :=
  if i < 0 then '-' :: natChars i.natAbs else natChars i.natAbs

/-- Zero-padded decimal rendering to width `w` (Python `%0wd`). -/
def padNat (w n : ℕ) : Str :=
  List.replicate (w - (natChars n).length) '0' ++ natChars n

/-- Parse a non-empty all-digit string into a natural number. -/
def parseNat (s : Str) : Option ℕ :=
  if s ≠ [] ∧ s.all isDigitC then
    some (Nat.ofDigits 10 ((s.map charVal).reverse))
  else none

/-- Parse an optionally `-`-signed decimal string into an integer. -/
def parseInt (s : Str) : Option ℤ :=
  if s.head? = some '-' then (parseNat s.tail).map (fun n : ℕ => -(n : ℤ))
  else (parseNat s).map (fun n : ℕ => (n : ℤ))

/-- Split a character list on a separator character. -/
def splitOnC (sep : Char) : Str → List Str
  | [] => [[]]
  | c :: rest =>
    if c = sep then [] :: splitOnC sep rest
    else
      match splitOnC sep rest with
      | [] => [[c]]
      | g :: gs => (c :: g) :: gs

/-! ### Rounding (models Python `round(x, 2)`, round-half-to-even) -/

/-- Round a rational to the nearest integer, ties to even, as Python `round`. -/
def roundHalfEven (x : ℚ) : ℤ :=
  let f := ⌊x⌋
  let r := x - f
  if r < 1/2 then f
  else if 1/2 < r then f + 1
  else if f % 2 = 0 then f else f + 1

/-- Round a rational to two decimal places, as Python `round(x, 2)`. -/
def round2 (x : ℚ) : ℚ := (roundHalfEven (x * 100) : ℚ) / 100

/-! ### models.py -/

/-- Product configuration (src/models.py `Product`). -/
structure Product where
  slug : String
  name : String
  query : String
  emoji : String := ""

/-- A single OLX listing (src/models.py `Listing`). -/
structure Listing where
  id : String
  title : String
  price : ℤ
  currency : String := "RON"
  city : String := ""
  region : String := ""
deriving DecidableEq, Repr

/-- A calendar date, as Python `datetime.date` (year, month, day). -/
structure Date where
  year : ℕ
  month : ℕ
  day : ℕ
deriving DecidableEq, Repr

/-- Python `date.isoformat()` / `str(date)`: `YYYY-MM-DD`, zero padded. -/
def Date.iso (d : Date) : Str :=
  padNat 4 d.year ++ '-' :: (padNat 2 d.month ++ '-' :: padNat 2 d.day)

/-- Dates representable by Python `datetime.date` as far as the fixed-width
`YYYY-MM-DD` rendering is concerned (Python enforces 1 ≤ year ≤ 9999,
1 ≤ month ≤ 12, 1 ≤ day ≤ 31; only the upper bounds matter here). -/
def ValidDate (d : Date) : Prop :=
  d.year < 10 ^ 4 ∧ d.month < 10 ^ 2 ∧ d.day < 10 ^ 2

instance (d : Date) : Decidable (ValidDate d) := by
  rw [ValidDate]; infer_instance

/-- Aggregated statistics for a single day (src/models.py `DailyStats`). -/
structure DailyStats where
  date : Date
  count : ℕ
  min_price : ℤ
  max_price : ℤ
  mean_price : ℚ
  median_price : ℚ
deriving DecidableEq, Repr

/-- Python `min` on a list of ints (only meaningful for non-empty input). -/
def pyMin (l : List ℤ) : ℤ :=
  match l with
  | [] => 0
  | x :: xs => xs.foldl min x

/-- Python `max` on a list of ints (only meaningful for non-empty input). -/
def pyMax (l : List ℤ) : ℤ :=
  match l with
  | [] => 0
  | x :: xs => xs.foldl max x

/-- Python `statistics.mean` on a list of ints, exact rational value. -/
def meanQ (l : List ℤ) : ℚ := ((l.foldl (· + ·) 0 : ℤ) : ℚ) / (l.length : ℚ)

/-- Python `sorted` on a list of ints: the sorted (stable) permutation. -/
def sortedAsc (l : List ℤ) : List ℤ := List.insertionSort (· ≤ ·) l

/-- Python `statistics.median` on a list of ints: sort, take the middle
element if the length is odd, else the average of the two middle elements. -/
def medianQ (l : List ℤ) : ℚ :=
  if (sortedAsc l).length % 2 = 1 then
    (((sortedAsc l).getD ((sortedAsc l).length / 2) 0 : ℤ) : ℚ)
  else
    (((sortedAsc l).getD ((sortedAsc l).length / 2 - 1) 0 +
      (sortedAsc l).getD ((sortedAsc l).length / 2) 0 : ℤ) : ℚ) / 2

/-- Error raised by `DailyStats.from_prices` on empty input
(`ValueError("Cannot create stats from empty price list")`; the spec calls it
`EmptyInputError`). -/
inductive StatsError where
  | emptyInput : StatsError
deriving DecidableEq, Repr

/-- src/models.py `DailyStats.from_prices`. -/
def DailyStats.from_prices (day : Date) (prices : List ℤ) :
    Except StatsError DailyStats :=
  if prices = [] then .error .emptyInput
  else .ok
    { date := day
      count := prices.length
      min_price := pyMin prices
      max_price := pyMax prices
      mean_price := round2 (meanQ prices)
      median_price := round2 (medianQ prices) }

/-- Python `repr` of a float that holds an exact two-decimal value (the only
floats the pipeline prints): sign, integer part, `.`, then the fractional part
with trailing zeros stripped but at least one digit kept. -/
def floatChars (q : ℚ) : Str :=
  let sign : Str := if q < 0 then ['-'] else []
  let a : ℚ := |q|
  let w : ℕ := (⌊a⌋).toNat
  let c : ℕ := (⌊(a - ⌊a⌋) * 100⌋).toNat
  sign ++ natChars w ++ '.' ::
    (if c = 0 then ['0']
     else if c % 10 = 0 then natChars (c / 10)
     else if c < 10 then '0' :: natChars c
     else natChars c)

/-- src/models.py `DailyStats.to_csv_row`. -/
def DailyStats.to_csv_row (s : DailyStats) : Str :=
  s.date.iso ++ ',' :: (natChars s.count ++ ',' :: (intChars s.min_price ++
    ',' :: (intChars s.max_price ++ ',' :: (floatChars s.mean_price ++
    ',' :: floatChars s.median_price))))

/-- src/models.py `DailyStats.csv_header`. -/
def csvHeader : Str := "date,count,min,max,mean,median".toList

/-! ### Re-reading a stored row (direct recomputation for the round-trip
property): split the row on commas and parse the six fields back. -/

/-- Parse a `YYYY-MM-DD` date string. -/
def parseDate (s : Str) : Option Date :=
  match splitOnC '-' s with
  | [a, b, c] =>
    match parseNat a, parseNat b, parseNat c with
    | some y, some m, some d => some ⟨y, m, d⟩
    | _, _, _ => none
  | _ => none

/-- Parse an optionally signed decimal string with one `.` into a rational. -/
def parseFloat (s : Str) : Option ℚ :=
  let sign : ℚ := if s.head? = some '-' then -1 else 1
  let t : Str := if s.head? = some '-' then s.tail else s
  match splitOnC '.' t with
  | [w, f] =>
    match parseNat w, parseNat f with
    | some wv, some fv => some (sign * ((wv : ℚ) + (fv : ℚ) / 10 ^ f.length))
    | _, _ => none
  | _ => none

/-- Parse one CSV data row into its six field values. -/
def parseRow (s : Str) : Option (Date × ℕ × ℤ × ℤ × ℚ × ℚ) :=
  match splitOnC ',' s with
  | [a, b, c, d, e, f] =>
    match parseDate a, parseNat b, parseInt c, parseInt d,
        parseFloat e, parseFloat f with
    | some dt, some cnt, some mn, some mx, some me, some md =>
      some (dt, cnt, mn, mx, me, md)
    | _, _, _, _, _, _ => none
  | _ => none

/-! ### main.py store operations

A CSV store file is `Option (List Str)`: `none` when the file does not exist,
`some lines` otherwise (lines without their trailing newline). -/

/-- src/main.py `append_to_csv`: write the header first when the file is new
or empty, then append the stats row. -/
def append_to_csv (file : Option (List Str)) (stats : DailyStats) : List Str :=
  match file with
  | none => [csvHeader, stats.to_csv_row]
  | some lines =>
    if lines = [] then [csvHeader, stats.to_csv_row]
    else lines ++ [stats.to_csv_row]

/-- src/main.py `should_update_today`: true if the file does not exist,
otherwise true iff no line starts with today's ISO date string. -/
def should_update_today (file : Option (List Str)) (today : Date) : Bool :=
  match file with
  | none => true
  | some lines => !(lines.any fun l => today.iso.isPrefixOf l)

/-! ### scraper.py -/

def MAX_RETRIES : ℕ := 3
def RETRY_DELAY_BASE : ℕ := 2
def REQUEST_DELAY : ℚ := 1/2
def ITEMS_PER_PAGE : ℕ := 50

/-- Payload of a price parameter (`__typename` plus optional numeric value). -/
structure ParamValue where
  typename : String
  value : Option ℚ
deriving DecidableEq, Repr

/-- One entry of a listing's `params` array; `value` is `none` when the
`value` key is absent from the JSON object. -/
structure ApiParam where
  key : String
  value : Option ParamValue
deriving DecidableEq, Repr

/-- One item of a search response page. -/
structure Item where
  id : String
  title : String
  params : List ApiParam
  city : String := ""
  region : String := ""
deriving DecidableEq, Repr

/-- The `data.clientCompatibleListings` field of a GraphQL response: either
the success variant (items plus optional `metadata.total_elements`) or the
explicit error variant. -/
inductive ListingsField where
  | success (items : List Item) (totalElements : Option ℕ)
  | apiError (code detail : String)
deriving DecidableEq, Repr

/-- A parsed GraphQL response body; `listings = none` models a JSON dict in
which `data.clientCompatibleListings` is missing (e.g. the empty dict). -/
structure ApiResponse where
  listings : Option ListingsField
deriving DecidableEq, Repr

/-- The empty dict `\x7b\x7d` returned when the retry loop falls through. -/
def emptyResponse : ApiResponse := ⟨none⟩

/-- Outcome of one `client.post` call, as seen by `_make_request`:
a 2xx response with parsed body, a 429, another HTTP error status, or a
transport/network error. -/
inductive Outcome where
  | ok (r : ApiResponse)
  | rateLimited
  | httpError
  | netError
deriving DecidableEq, Repr

/-- Exception propagating out of `_make_request`. -/
inductive ReqError where
  | httpStatus
  | transport
deriving DecidableEq, Repr

/-- Result of `_make_request`: final result, the sleeps performed in order
(durations in seconds), and the number of `client.post` calls made. -/
structure ReqOut where
  result : Except ReqError ApiResponse
  sleeps : List ℚ
  calls : ℕ
deriving Repr

/-- The retry loop of src/scraper.py `_make_request`, network modelled by
`oracle` mapping the absolute index of each `client.post` call to its
outcome; `start` is the index of this request's first call, `attempt` the
current loop index and `fuel` the remaining loop iterations (the loop body
runs for `attempt = 0, 1, ..., MAX_RETRIES - 1`; on 429 it sleeps 60 s and
continues; on 2xx it returns the body; on another HTTP error or a transport
error it sleeps `RETRY_DELAY_BASE ^ (attempt + 1)` and retries, unless this
was the last attempt, in which case it re-raises; falling out of the loop
returns the empty dict). -/
def makeRequestGo (oracle : ℕ → Outcome) (start : ℕ) : ℕ → ℕ → ReqOut
  | _, 0 => ⟨.ok emptyResponse, [], 0⟩
  | attempt, fuel + 1 =>
    match oracle (start + attempt) with
    | .ok r => ⟨.ok r, [], 1⟩
    | .rateLimited =>
      let o := makeRequestGo oracle start (attempt + 1) fuel
      ⟨o.result, 60 :: o.sleeps, o.calls + 1⟩
    | .httpError =>
      if fuel = 0 then ⟨.error .httpStatus, [], 1⟩
      else
        let o := makeRequestGo oracle start (attempt + 1) fuel
        ⟨o.result, ((RETRY_DELAY_BASE : ℚ) ^ (attempt + 1)) :: o.sleeps, o.calls + 1⟩
    | .netError =>
      if fuel = 0 then ⟨.error .transport, [], 1⟩
      else
        let o := makeRequestGo oracle start (attempt + 1) fuel
        ⟨o.result, ((RETRY_DELAY_BASE : ℚ) ^ (attempt + 1)) :: o.sleeps, o.calls + 1⟩

/-- src/scraper.py `OLXScraper._make_request` (the query string and offset
only select the page; they do not affect control flow, which is driven by the
outcomes of the successive `client.post` calls). -/
def make_request (oracle : ℕ → Outcome) (start : ℕ) : ReqOut :=
  makeRequestGo oracle start 0 MAX_RETRIES

/-- Python `int()` on a float: truncation toward zero. -/
def pyTrunc (q : ℚ) : ℤ := if q < 0 then ⌈q⌉ else ⌊q⌋

/-- src/scraper.py `OLXScraper._extract_price`: scan the params for the first
entry whose key is `"price"`, whose value payload is a `PriceParam` and whose
numeric value is present; return that value truncated to an integer. -/
def extract_price : List ApiParam → Option ℤ
  | [] => none
  | p :: rest =>
    match p.value with
    | none => extract_price rest
    | some pv =>
      if p.key = "price" ∧ pv.typename = "PriceParam" then
        match pv.value with
        | some x => some (pyTrunc x)
        | none => extract_price rest
      else extract_price rest

/-- Build the `Listing` yielded for an item with extracted price. -/
def mkListing (it : Item) (price : ℤ) : Listing :=
  ⟨it.id, it.title, price, "RON", it.city, it.region⟩

/-- src/scraper.py `OLXScraper._parse_listings`: an explicit error variant or
a missing listings field yields no listings; otherwise each item with an
extractable price yields one `Listing` and the others are dropped. -/
def parse_listings (r : ApiResponse) : List Listing :=
  match r.listings with
  | none => []
  | some (.apiError _ _) => []
  | some (.success items _) =>
    items.filterMap fun it => (extract_price it.params).map (mkListing it)

/-- src/scraper.py `OLXScraper._get_total_count`: read
`data.clientCompatibleListings.metadata.total_elements`, defaulting to 0 at
every missing step. -/
def get_total_count (r : ApiResponse) : ℕ :=
  match r.listings with
  | some (.success _ (some t)) => t
  | _ => 0

/-- Result of `fetch_all`: final result, the `offset` argument of each
`_make_request` call in order, and all sleeps performed in order. -/
structure FetchOut where
  result : Except ReqError (List Listing)
  reqOffsets : List ℕ
  sleeps : List ℚ
deriving Repr

/-- The pagination loop of src/scraper.py `fetch_all` (`while offset <
total`): sleep `REQUEST_DELAY`, make the page request (an exception
propagates), parse and collect its listings, advance `offset` by
`ITEMS_PER_PAGE`. -/
def fetchLoop (oracle : ℕ → Outcome) (total : ℕ) (offset start : ℕ) : FetchOut :=
  if _h : offset < total then
    let o := make_request oracle start
    match o.result with
    | .error e => ⟨.error e, [offset], REQUEST_DELAY :: o.sleeps⟩
    | .ok r =>
      let rest := fetchLoop oracle total (offset + ITEMS_PER_PAGE) (start + o.calls)
      ⟨rest.result.map (fun l => parse_listings r ++ l),
       offset :: rest.reqOffsets,
       (REQUEST_DELAY :: o.sleeps) ++ rest.sleeps⟩
  else ⟨.ok [], [], []⟩
termination_by total - offset
decreasing_by simp only [ITEMS_PER_PAGE]; omega

/-- src/scraper.py `OLXScraper.fetch_all`: request offset 0 to learn the
total count, return empty immediately when it is 0, otherwise collect the
first page's listings and loop over the remaining offsets. -/
def fetch_all (oracle : ℕ → Outcome) : FetchOut :=
  let o := make_request oracle 0
  match o.result with
  | .error e => ⟨.error e, [0], o.sleeps⟩
  | .ok data =>
    let total := get_total_count data
    if total = 0 then ⟨.ok [], [0], o.sleeps⟩
    else
      let rest := fetchLoop oracle total ITEMS_PER_PAGE o.calls
      ⟨rest.result.map (fun l => parse_listings data ++ l),
       0 :: rest.reqOffsets,
       o.sleeps ++ rest.sleeps⟩

/-! ### main.py per-product orchestration step -/

/-- Result of one product's turn in the main loop: the product's store file
afterwards, whether a stats row was appended, and whether a per-product
dashboard chart was requested. -/
structure StepResult where
  store : Option (List Str)
  appended : Bool
  chartRequested : Bool
deriving DecidableEq, Repr

/-- The per-product body of src/main.py `main` (lines 167-193), with the
fetch result passed in: skip when today's row already exists; skip (warn,
continue) when no listings were fetched; otherwise compute stats from the
listing prices, append to the store and request the dashboard chart. -/
def processProduct (today : Date) (store : Option (List Str))
    (listings : List Listing) : Except StatsError StepResult :=
  if !should_update_today store today then .ok ⟨store, false, false⟩
  else if listings = [] then .ok ⟨store, false, false⟩
  else
    match DailyStats.from_prices today (listings.map (·.price)) with
    | .error e => .error e
    | .ok stats => .ok ⟨some (append_to_csv store stats), true, true⟩

/-! ## Theorems -/

/-- C2: for every day `d`, `from_prices d []` fails with the empty-input
error (it never returns a zero-filled stats row). -/
theorem C2_from_prices_empty_fails (d : Date) :
    DailyStats.from_prices d [] = .error .emptyInput := rfl

/-- C3: on transient failures (non-429 HTTP error or transport error)
`_make_request` sleeps `RETRY_DELAY_BASE ^ (attempt + 1)` seconds and
retries, making up to `MAX_RETRIES` attempts in total; exhausting the
attempts on transient failures propagates the failure; two transient
failures followed by a success return the payload after exactly two sleeps
with escalating delays; a 2xx response short-circuits the loop at once. -/
theorem C3_retry_backoff (oracle : ℕ → Outcome) (r : ApiResponse) :
    ((∀ k < MAX_RETRIES, oracle k = .netError) →
      make_request oracle 0 =
        ⟨.error .transport,
         [(RETRY_DELAY_BASE : ℚ) ^ (0 + 1), (RETRY_DELAY_BASE : ℚ) ^ (1 + 1)], 3⟩) ∧
    ((∀ k < MAX_RETRIES, oracle k = .httpError) →
      make_request oracle 0 =
        ⟨.error .httpStatus,
         [(RETRY_DELAY_BASE : ℚ) ^ (0 + 1), (RETRY_DELAY_BASE : ℚ) ^ (1 + 1)], 3⟩) ∧
    (oracle 0 = .netError → oracle 1 = .httpError → oracle 2 = .ok r →
      make_request oracle 0 =
        ⟨.ok r,
         [(RETRY_DELAY_BASE : ℚ) ^ (0 + 1), (RETRY_DELAY_BASE : ℚ) ^ (1 + 1)], 3⟩) ∧
    (oracle 0 = .ok r → make_request oracle 0 = ⟨.ok r, [], 1⟩) := by
  refine ⟨fun h => ?_, fun h => ?_, fun h0 h1 h2 => ?_, fun h0 => ?_⟩
  · have h0 := h 0 (by norm_num [MAX_RETRIES])
    have h1 := h 1 (by norm_num [MAX_RETRIES])
    have h2 := h 2 (by norm_num [MAX_RETRIES])
    simp [make_request, MAX_RETRIES, makeRequestGo, h0, h1, h2]
  · have h0 := h 0 (by norm_num [MAX_RETRIES])
    have h1 := h 1 (by norm_num [MAX_RETRIES])
    have h2 := h 2 (by norm_num [MAX_RETRIES])
    simp [make_request, MAX_RETRIES, makeRequestGo, h0, h1, h2]
  · simp [make_request, MAX_RETRIES, makeRequestGo, h0, h1, h2]
  · simp [make_request, MAX_RETRIES, makeRequestGo, h0]

/-- Witness for C3: a request failing with a network error, then an HTTP
error, then succeeding, returns the payload after sleeping 2 s then 4 s. -/
theorem C3_retry_backoff_witness :
    make_request
      (fun k => if k = 0 then .netError else if k = 1 then .httpError
        else .ok emptyResponse) 0 =
      ⟨.ok emptyResponse, [2, 4], 3⟩ := by
  have h := (C3_retry_backoff
    (fun k => if k = 0 then .netError else if k = 1 then .httpError
      else .ok emptyResponse) emptyResponse).2.2.1 rfl rfl rfl
  simpa [RETRY_DELAY_BASE] using h

/-- C4 as written is false: in the code, a 429 executes `continue` inside
`for attempt in range(MAX_RETRIES)`, which advances the attempt index, so a
subsequent transient failure sleeps `RETRY_DELAY_BASE ^ 2 = 4` seconds, not
the non-advanced `RETRY_DELAY_BASE ^ (0 + 1) = 2`. -/
theorem C4_counterexample :
    (make_request
      (fun k => if k = 0 then .rateLimited else if k = 1 then .httpError
        else .ok emptyResponse) 0).sleeps = [60, 4] ∧
    (make_request
      (fun k => if k = 0 then .rateLimited else if k = 1 then .httpError
        else .ok emptyResponse) 0).sleeps ≠
      [60, (RETRY_DELAY_BASE : ℚ) ^ (0 + 1)] := by
  constructor
  · simp [make_request, MAX_RETRIES, makeRequestGo, RETRY_DELAY_BASE]
    norm_num
  · simp [make_request, MAX_RETRIES, makeRequestGo, RETRY_DELAY_BASE]
    norm_num

/-- C4 amended: on HTTP 429 `_make_request` sleeps a fixed 60-second
cooldown (longer than every normal backoff delay) and retries at the *next*
attempt index, so the 429 consumes attempt budget *and* advances the
exponential backoff delay used by a subsequent transient failure; a 429
itself never triggers an exponential-backoff sleep (all-429 runs sleep only
the fixed cooldown). -/
theorem C4_rate_limit_cooldown (oracle : ℕ → Outcome) (r : ApiResponse) :
    (oracle 0 = .rateLimited → oracle 1 = .httpError → oracle 2 = .ok r →
      make_request oracle 0 =
        ⟨.ok r, [60, (RETRY_DELAY_BASE : ℚ) ^ (1 + 1)], 3⟩) ∧
    ((∀ k < MAX_RETRIES, oracle k = .rateLimited) →
      (make_request oracle 0).sleeps = [60, 60, 60]) ∧
    (RETRY_DELAY_BASE : ℚ) ^ MAX_RETRIES < 60 := by
  refine ⟨fun h0 h1 h2 => ?_, fun h => ?_, by norm_num [RETRY_DELAY_BASE, MAX_RETRIES]⟩
  · simp [make_request, MAX_RETRIES, makeRequestGo, h0, h1, h2]
  · have h0 := h 0 (by norm_num [MAX_RETRIES])
    have h1 := h 1 (by norm_num [MAX_RETRIES])
    have h2 := h 2 (by norm_num [MAX_RETRIES])
    simp [make_request, MAX_RETRIES, makeRequestGo, h0, h1, h2]

/-- Witness for C4 (amended): a 429 then an HTTP error then a success
sleeps 60 s then 4 s — the backoff delay after the 429 is the advanced one. -/
theorem C4_rate_limit_cooldown_witness :
    make_request
      (fun k => if k = 0 then .rateLimited else if k = 1 then .httpError
        else .ok emptyResponse) 0 =
      ⟨.ok emptyResponse, [60, 4], 3⟩ := by
  have h := (C4_rate_limit_cooldown
    (fun k => if k = 0 then .rateLimited else if k = 1 then .httpError
      else .ok emptyResponse) emptyResponse).1 rfl rfl rfl
  simpa [RETRY_DELAY_BASE] using h

/-- C5: when every attempt of a page request is rate limited, the retry
loop falls through and `_make_request` returns the empty dict instead of
raising; `fetch_all` then reads a total count of 0 from it and returns the
empty list, indistinguishable at the caller from a genuine zero-result
search. -/
theorem C5_all_rate_limited_returns_empty (oracle : ℕ → Outcome)
    (h : ∀ k, oracle k = .rateLimited) :
    (make_request oracle 0).result = .ok emptyResponse ∧
    get_total_count emptyResponse = 0 ∧
    (fetch_all oracle).result = .ok [] ∧
    (fetch_all oracle).result =
      (fetch_all (fun _ => .ok ⟨some (.success [] (some 0))⟩)).result := by
  have hmr : make_request oracle 0 = ⟨.ok emptyResponse, [60, 60, 60], 3⟩ := by
    simp [make_request, MAX_RETRIES, makeRequestGo, h 0, h 1, h 2]
  have hf : fetch_all oracle = ⟨.ok [], [0], [60, 60, 60]⟩ := by
    simp only [fetch_all, hmr]
    rfl
  have hg : (fetch_all (fun _ => .ok ⟨some (.success [] (some 0))⟩)).result =
      .ok [] := rfl
  exact ⟨by rw [hmr], rfl, by rw [hf], by rw [hf]; exact hg.symm⟩

/-- Witness for C5: the constant-429 oracle yields an empty fetch result. -/
theorem C5_all_rate_limited_returns_empty_witness :
    (fetch_all (fun _ => .rateLimited)).result = .ok [] :=
  (C5_all_rate_limited_returns_empty (fun _ => .rateLimited)
    (fun _ => rfl)).2.2.1

/-! ### Statistics lemmas -/

lemma foldl_min_le_init (xs : List ℤ) (a : ℤ) : xs.foldl min a ≤ a := by
  induction xs generalizing a with
  | nil => exact le_refl a
  | cons x xs ih => exact le_trans (ih (min a x)) (min_le_left a x)

lemma foldl_min_le_mem (xs : List ℤ) (a x : ℤ) (hx : x ∈ xs) :
    xs.foldl min a ≤ x := by
  induction xs generalizing a with
  | nil => cases hx
  | cons y ys ih =>
    rcases List.mem_cons.mp hx with rfl | h
    · exact le_trans (foldl_min_le_init ys (min a x)) (min_le_right a x)
    · exact ih (min a y) h

lemma foldl_min_mem (xs : List ℤ) (a : ℤ) :
    xs.foldl min a = a ∨ xs.foldl min a ∈ xs := by
  induction xs generalizing a with
  | nil => exact Or.inl rfl
  | cons x xs ih =>
    rcases ih (min a x) with h | h
    · rcases min_choice a x with h' | h'
      · exact Or.inl (by rw [List.foldl_cons, h, h'])
      · exact Or.inr (by rw [List.foldl_cons, h, h']; exact List.mem_cons_self x xs)
    · exact Or.inr (List.mem_cons_of_mem x h)

lemma foldl_max_init_le (xs : List ℤ) (a : ℤ) : a ≤ xs.foldl max a := by
  induction xs generalizing a with
  | nil => exact le_refl a
  | cons x xs ih => exact le_trans (le_max_left a x) (ih (max a x))

lemma foldl_max_mem_le (xs : List ℤ) (a x : ℤ) (hx : x ∈ xs) :
    x ≤ xs.foldl max a := by
  induction xs generalizing a with
  | nil => cases hx
  | cons y ys ih =>
    rcases List.mem_cons.mp hx with rfl | h
    · exact le_trans (le_max_right a x) (foldl_max_init_le ys (max a x))
    · exact ih (max a y) h

lemma foldl_max_mem (xs : List ℤ) (a : ℤ) :
    xs.foldl max a = a ∨ xs.foldl max a ∈ xs := by
  induction xs generalizing a with
  | nil => exact Or.inl rfl
  | cons x xs ih =>
    rcases ih (max a x) with h | h
    · rcases max_choice a x with h' | h'
      · exact Or.inl (by rw [List.foldl_cons, h, h'])
      · exact Or.inr (by rw [List.foldl_cons, h, h']; exact List.mem_cons_self x xs)
    · exact Or.inr (List.mem_cons_of_mem x h)

lemma pyMin_mem (l : List ℤ) (h : l ≠ []) : pyMin l ∈ l := by
  match l with
  | x :: xs =>
    rcases foldl_min_mem xs x with h' | h'
    · rw [pyMin, h']; exact List.mem_cons_self x xs
    · exact List.mem_cons_of_mem x h'

lemma pyMin_le (l : List ℤ) (x : ℤ) (hx : x ∈ l) : pyMin l ≤ x := by
  match l with
  | y :: ys =>
    rcases List.mem_cons.mp hx with rfl | h
    · exact foldl_min_le_init ys x
    · exact foldl_min_le_mem ys y x h

lemma pyMax_mem (l : List ℤ) (h : l ≠ []) : pyMax l ∈ l := by
  match l with
  | x :: xs =>
    rcases foldl_max_mem xs x with h' | h'
    · rw [pyMax, h']; exact List.mem_cons_self x xs
    · exact List.mem_cons_of_mem x h'

lemma le_pyMax (l : List ℤ) (x : ℤ) (hx : x ∈ l) : x ≤ pyMax l := by
  match l with
  | y :: ys =>
    rcases List.mem_cons.mp hx with rfl | h
    · exact foldl_max_init_le ys x
    · exact foldl_max_mem_le ys y x h

lemma mul_length_le_sum (l : List ℤ) (m : ℤ) (h : ∀ y ∈ l, m ≤ y) :
    m * l.length ≤ l.sum := by
  induction l with
  | nil => simp
  | cons x xs ih =>
    have hx := h x (List.mem_cons_self x xs)
    have hxs := ih fun y hy => h y (List.mem_cons_of_mem _ hy)
    simp only [List.length_cons, List.sum_cons]
    push_cast
    linarith

lemma sum_le_mul_length (l : List ℤ) (M : ℤ) (h : ∀ y ∈ l, y ≤ M) :
    l.sum ≤ M * l.length := by
  induction l with
  | nil => simp
  | cons x xs ih =>
    have hx := h x (List.mem_cons_self x xs)
    have hxs := ih fun y hy => h y (List.mem_cons_of_mem _ hy)
    simp only [List.length_cons, List.sum_cons]
    push_cast
    linarith

lemma le_meanQ (l : List ℤ) (m : ℤ) (hne : l ≠ []) (h : ∀ y ∈ l, m ≤ y) :
    (m : ℚ) ≤ meanQ l := by
  have hn : (0 : ℚ) < (l.length : ℚ) := by
    exact_mod_cast List.length_pos.mpr hne
  rw [meanQ, ← List.sum_eq_foldl, le_div_iff hn]
  exact_mod_cast mul_length_le_sum l m h

lemma meanQ_le (l : List ℤ) (M : ℤ) (hne : l ≠ []) (h : ∀ y ∈ l, y ≤ M) :
    meanQ l ≤ (M : ℚ) := by
  have hn : (0 : ℚ) < (l.length : ℚ) := by
    exact_mod_cast List.length_pos.mpr hne
  rw [meanQ, ← List.sum_eq_foldl, div_le_iff hn]
  exact_mod_cast sum_le_mul_length l M h

lemma sortedAsc_length (l : List ℤ) : (sortedAsc l).length = l.length :=
  (List.perm_insertionSort _ l).length_eq

lemma sortedAsc_getD_mem (l : List ℤ) (i : ℕ) (hi : i < (sortedAsc l).length) :
    (sortedAsc l).getD i 0 ∈ l := by
  rw [List.getD_eq_getElem _ _ hi]
  exact (List.perm_insertionSort _ l).mem_iff.mp (List.getElem_mem hi)

lemma le_medianQ (l : List ℤ) (m : ℤ) (hne : l ≠ []) (h : ∀ y ∈ l, m ≤ y) :
    (m : ℚ) ≤ medianQ l := by
  have hn : (sortedAsc l).length ≠ 0 := by
    rw [sortedAsc_length]
    exact (List.length_pos.mpr hne).ne'
  rw [medianQ]
  split_ifs with hpar
  · have hi : (sortedAsc l).length / 2 < (sortedAsc l).length := by omega
    exact_mod_cast h _ (sortedAsc_getD_mem l _ hi)
  · have hi2 : (sortedAsc l).length / 2 < (sortedAsc l).length := by omega
    have hi1 : (sortedAsc l).length / 2 - 1 < (sortedAsc l).length := by omega
    have h1 := h _ (sortedAsc_getD_mem l _ hi1)
    have h2 := h _ (sortedAsc_getD_mem l _ hi2)
    rw [le_div_iff (by norm_num : (0:ℚ) < 2)]
    have hz : m * 2 ≤ (sortedAsc l).getD ((sortedAsc l).length / 2 - 1) 0 +
        (sortedAsc l).getD ((sortedAsc l).length / 2) 0 := by omega
    exact_mod_cast hz

lemma medianQ_le (l : List ℤ) (M : ℤ) (hne : l ≠ []) (h : ∀ y ∈ l, y ≤ M) :
    medianQ l ≤ (M : ℚ) := by
  have hn : (sortedAsc l).length ≠ 0 := by
    rw [sortedAsc_length]
    exact (List.length_pos.mpr hne).ne'
  rw [medianQ]
  split_ifs with hpar
  · have hi : (sortedAsc l).length / 2 < (sortedAsc l).length := by omega
    exact_mod_cast h _ (sortedAsc_getD_mem l _ hi)
  · have hi2 : (sortedAsc l).length / 2 < (sortedAsc l).length := by omega
    have hi1 : (sortedAsc l).length / 2 - 1 < (sortedAsc l).length := by omega
    have h1 := h _ (sortedAsc_getD_mem l _ hi1)
    have h2 := h _ (sortedAsc_getD_mem l _ hi2)
    rw [div_le_iff (by norm_num : (0:ℚ) < 2)]
    have hz : (sortedAsc l).getD ((sortedAsc l).length / 2 - 1) 0 +
        (sortedAsc l).getD ((sortedAsc l).length / 2) 0 ≤ M * 2 := by omega
    exact_mod_cast hz

/-! ### Rounding lemmas -/

lemma floor_le_roundHalfEven (x : ℚ) : ⌊x⌋ ≤ roundHalfEven x := by
  rw [roundHalfEven]
  split_ifs <;> omega

lemma roundHalfEven_le_ceil (x : ℚ) : roundHalfEven x ≤ ⌈x⌉ := by
  have hfc : ⌊x⌋ ≤ ⌈x⌉ := Int.floor_le_ceil x
  have hlt : (1:ℚ)/2 ≤ x - ⌊x⌋ → ⌊x⌋ + 1 ≤ ⌈x⌉ := by
    intro hr
    have : (⌊x⌋ : ℚ) < x := by linarith
    exact Int.add_one_le_iff.mpr (Int.lt_ceil.mpr this)
  rw [roundHalfEven]
  split_ifs with h1 h2 h3
  · exact hfc
  · exact hlt (by push_neg at h1; linarith)
  · exact hfc
  · exact hlt (by push_neg at h1; linarith)

lemma intCast_le_round2 (m : ℤ) (x : ℚ) (h : (m : ℚ) ≤ x) :
    (m : ℚ) ≤ round2 x := by
  rw [round2, le_div_iff (by norm_num : (0:ℚ) < 100)]
  have h1 : m * 100 ≤ ⌊x * 100⌋ := Int.le_floor.mpr (by push_cast; linarith)
  have h2 := floor_le_roundHalfEven (x * 100)
  exact_mod_cast le_trans h1 h2

lemma round2_le_intCast (M : ℤ) (x : ℚ) (h : x ≤ (M : ℚ)) :
    round2 x ≤ (M : ℚ) := by
  rw [round2, div_le_iff (by norm_num : (0:ℚ) < 100)]
  have h1 : ⌈x * 100⌉ ≤ M * 100 := Int.ceil_le.mpr (by push_cast; linarith)
  have h2 := roundHalfEven_le_ceil (x * 100)
  exact_mod_cast le_trans h2 h1

lemma round2_intCast (n : ℤ) : round2 ((n : ℚ)) = (n : ℚ) := by
  have h1 : ((n : ℚ) * 100) = ((n * 100 : ℤ) : ℚ) := by push_cast; ring
  rw [round2, roundHalfEven]
  rw [h1, Int.floor_intCast]
  rw [if_pos (by simp)]
  push_cast
  field_simp

/-! ### Decimal string lemmas -/

lemma charVal_digitChar (d : ℕ) (h : d < 10) : charVal (digitChar d) = d := by
  interval_cases d <;> rfl

lemma isDigitC_digitChar (d : ℕ) (h : d < 10) : isDigitC (digitChar d) = true := by
  interval_cases d <;> rfl

lemma natChars_ne_nil (n : ℕ) : natChars n ≠ [] := by
  rw [natChars]
  split_ifs with h
  · simp
  · simpa using Nat.digits_ne_nil_iff_ne_zero.mpr h

lemma mem_natChars_digit (n : ℕ) (c : Char) (hc : c ∈ natChars n) :
    isDigitC c = true := by
  rw [natChars] at hc
  split_ifs at hc with h
  · rw [List.mem_singleton] at hc
    rw [hc]; rfl
  · rw [List.mem_reverse] at hc
    obtain ⟨d, hd, rfl⟩ := List.mem_map.mp hc
    exact isDigitC_digitChar d (Nat.digits_lt_base (by norm_num) hd)

lemma mem_padNat_digit (w n : ℕ) (c : Char) (hc : c ∈ padNat w n) :
    isDigitC c = true := by
  rw [padNat] at hc
  rcases List.mem_append.mp hc with h | h
  · rw [(List.mem_replicate.mp h).2]; rfl
  · exact mem_natChars_digit n c h

lemma padNat_ne_nil (w n : ℕ) : padNat w n ≠ [] := by
  rw [padNat]
  intro hcontra
  exact natChars_ne_nil n (List.append_eq_nil.mp hcontra).2

lemma ofDigits_replicate_zero (b k : ℕ) :
    Nat.ofDigits b (List.replicate k 0) = 0 := by
  induction k with
  | zero => rfl
  | succ k ih => simp [List.replicate_succ, Nat.ofDigits_cons, ih]

lemma ofDigits_natChars (n : ℕ) :
    Nat.ofDigits 10 (((natChars n).map charVal).reverse) = n := by
  rw [natChars]
  split_ifs with h
  · rw [h]; rfl
  · rw [List.map_reverse, List.reverse_reverse, List.map_map]
    have hmap : (Nat.digits 10 n).map (charVal ∘ digitChar) = Nat.digits 10 n := by
      have := List.map_congr_left (l := Nat.digits 10 n)
        (f := charVal ∘ digitChar) (g := id)
        (fun d hd => charVal_digitChar d (Nat.digits_lt_base (by norm_num) hd))
      rw [this, List.map_id]
    rw [hmap, Nat.ofDigits_digits]

lemma parseNat_natChars (n : ℕ) : parseNat (natChars n) = some n := by
  rw [parseNat, if_pos, ofDigits_natChars]
  exact ⟨natChars_ne_nil n,
    List.all_eq_true.mpr (fun c hc => mem_natChars_digit n c hc)⟩

lemma parseNat_replicate_zero (k n : ℕ) :
    parseNat (List.replicate k '0' ++ natChars n) = some n := by
  rw [parseNat, if_pos]
  · rw [List.map_append, List.reverse_append, List.map_replicate,
      List.reverse_replicate]
    have h0 : charVal '0' = 0 := rfl
    rw [h0, Nat.ofDigits_append, ofDigits_replicate_zero, ofDigits_natChars]
    simp
  · constructor
    · intro hcontra
      exact natChars_ne_nil n (List.append_eq_nil.mp hcontra).2
    · refine List.all_eq_true.mpr (fun c hc => ?_)
      rcases List.mem_append.mp hc with h | h
      · rw [(List.mem_replicate.mp h).2]; rfl
      · exact mem_natChars_digit n c h

lemma parseNat_padNat (w n : ℕ) : parseNat (padNat w n) = some n := by
  rw [padNat, parseNat_replicate_zero]

lemma natChars_length_le (w n : ℕ) (hw : 1 ≤ w) (h : n < 10 ^ w) :
    (natChars n).length ≤ w := by
  rw [natChars]
  split_ifs with h0
  · simpa using hw
  · rw [List.length_reverse, List.length_map,
      Nat.digits_len 10 n (by norm_num) h0]
    have := (Nat.lt_pow_iff_log_lt (by norm_num : 1 < 10) h0).mp h
    omega

lemma padNat_length (w n : ℕ) (hw : 1 ≤ w) (h : n < 10 ^ w) :
    (padNat w n).length = w := by
  rw [padNat, List.length_append, List.length_replicate]
  have := natChars_length_le w n hw h
  omega

lemma splitOnC_of_not_mem (sep : Char) (a : Str) (h : sep ∉ a) :
    splitOnC sep a = [a] := by
  induction a with
  | nil => rfl
  | cons c cs ih =>
    have hc : ¬ c = sep := fun hcs => h (hcs ▸ List.mem_cons_self c cs)
    simp only [splitOnC, if_neg hc,
      ih (fun hm => h (List.mem_cons_of_mem c hm))]

lemma splitOnC_append (sep : Char) (a b : Str) (h : sep ∉ a) :
    splitOnC sep (a ++ sep :: b) = a :: splitOnC sep b := by
  induction a with
  | nil => simp [splitOnC]
  | cons c cs ih =>
    have hc : ¬ c = sep := fun hcs => h (hcs ▸ List.mem_cons_self c cs)
    simp only [List.cons_append, splitOnC, List.append_eq, if_neg hc,
      ih (fun hm => h (List.mem_cons_of_mem c hm))]

lemma not_mem_padNat (w n : ℕ) (c : Char) (hc : isDigitC c = false) :
    c ∉ padNat w n := fun hm => by
  rw [mem_padNat_digit w n c hm] at hc
  cases hc

lemma parseDate_iso (d : Date) : parseDate d.iso = some d := by
  have hsplit : splitOnC '-' d.iso =
      [padNat 4 d.year, padNat 2 d.month, padNat 2 d.day] := by
    rw [Date.iso,
      splitOnC_append _ _ _ (not_mem_padNat 4 d.year '-' (by decide)),
      splitOnC_append _ _ _ (not_mem_padNat 2 d.month '-' (by decide)),
      splitOnC_of_not_mem _ _ (not_mem_padNat 2 d.day '-' (by decide))]
  simp only [parseDate, hsplit, parseNat_padNat]

lemma iso_inj (d1 d2 : Date) (h : d1.iso = d2.iso) : d1 = d2 := by
  have h1 := parseDate_iso d1
  rw [h, parseDate_iso d2] at h1
  exact (Option.some.inj h1).symm

lemma iso_length (d : Date) (hv : ValidDate d) : d.iso.length = 10 := by
  rw [Date.iso]
  simp only [List.length_append, List.length_cons]
  rw [padNat_length 4 d.year (by norm_num) hv.1,
    padNat_length 2 d.month (by norm_num) hv.2.1,
    padNat_length 2 d.day (by norm_num) hv.2.2]

lemma iso_head_digit (d : Date) :
    ∃ c cs, d.iso = c :: cs ∧ isDigitC c = true := by
  obtain ⟨c, cs, hc⟩ := List.exists_cons_of_ne_nil (padNat_ne_nil 4 d.year)
  exact ⟨c, cs ++ '-' :: (padNat 2 d.month ++ '-' :: padNat 2 d.day),
    by rw [Date.iso, hc, List.cons_append],
    mem_padNat_digit 4 d.year c (hc ▸ List.mem_cons_self c cs)⟩

lemma natChars_head_digit (n : ℕ) :
    ∃ c cs, natChars n = c :: cs ∧ isDigitC c = true := by
  obtain ⟨c, cs, hc⟩ := List.exists_cons_of_ne_nil (natChars_ne_nil n)
  exact ⟨c, cs, hc, mem_natChars_digit n c (hc ▸ List.mem_cons_self c cs)⟩

lemma isDigitC_ne_dash (c : Char) (hc : isDigitC c = true) : c ≠ '-' := by
  rintro rfl
  exact absurd hc (by decide)

lemma parseInt_intChars (i : ℤ) : parseInt (intChars i) = some i := by
  rw [intChars]
  split_ifs with hneg
  · rw [parseInt,
      if_pos (show (('-' :: natChars i.natAbs : Str)).head? = some '-' from rfl)]
    show (parseNat (natChars i.natAbs)).map _ = _
    rw [parseNat_natChars]
    show some (-(i.natAbs : ℤ)) = some i
    rw [Int.ofNat_natAbs_of_nonpos (le_of_lt hneg)]
    simp
  · obtain ⟨c, cs, hc, hdig⟩ := natChars_head_digit i.natAbs
    rw [parseInt, hc]
    rw [if_neg (by simpa using isDigitC_ne_dash c hdig)]
    rw [← hc, parseNat_natChars]
    show some ((i.natAbs : ℤ)) = some i
    rw [Int.natAbs_of_nonneg (not_lt.mp hneg)]

lemma not_mem_natChars (n : ℕ) (c : Char) (hc : isDigitC c = false) :
    c ∉ natChars n := fun hm => by
  rw [mem_natChars_digit n c hm] at hc
  cases hc

lemma not_mem_intChars (i : ℤ) (c : Char) (hc : isDigitC c = false)
    (hd : c ≠ '-') : c ∉ intChars i := by
  rw [intChars]
  split_ifs with hneg
  · intro hm
    rcases List.mem_cons.mp hm with h | h
    · exact hd h
    · exact not_mem_natChars _ c hc h
  · exact not_mem_natChars _ c hc

lemma not_mem_iso (d : Date) (c : Char) (hc : isDigitC c = false)
    (hd : c ≠ '-') : c ∉ d.iso := by
  rw [Date.iso]
  intro hm
  rcases List.mem_append.mp hm with h | h
  · exact not_mem_padNat 4 d.year c hc h
  · rcases List.mem_cons.mp h with h' | h'
    · exact hd h'
    · rcases List.mem_append.mp h' with h2 | h2
      · exact not_mem_padNat 2 d.month c hc h2
      · rcases List.mem_cons.mp h2 with h3 | h3
        · exact hd h3
        · exact not_mem_padNat 2 d.day c hc h3

lemma mem_floatChars (q : ℚ) (c : Char) (hm : c ∈ floatChars q) :
    c = '-' ∨ c = '.' ∨ isDigitC c = true := by
  simp only [floatChars] at hm
  rcases List.mem_append.mp hm with h | h
  · rcases List.mem_append.mp h with h1 | h1
    · split_ifs at h1
      · rw [List.mem_singleton] at h1
        exact Or.inl h1
      · cases h1
    · exact Or.inr (Or.inr (mem_natChars_digit _ c h1))
  · rcases List.mem_cons.mp h with h1 | h1
    · exact Or.inr (Or.inl h1)
    · refine Or.inr (Or.inr ?_)
      split_ifs at h1
      · rw [List.mem_singleton] at h1
        rw [h1]; rfl
      · exact mem_natChars_digit _ c h1
      · rcases List.mem_cons.mp h1 with h2 | h2
        · rw [h2]; rfl
        · exact mem_natChars_digit _ c h2
      · exact mem_natChars_digit _ c h1

lemma not_mem_comma_floatChars (q : ℚ) : ',' ∉ floatChars q := fun hm => by
  rcases mem_floatChars q ',' hm with h | h | h
  · cases h
  · cases h
  · exact absurd h (by decide)

lemma natChars_length_eq_one (n : ℕ) (h : n < 10) : (natChars n).length = 1 := by
  have hle := natChars_length_le 1 n (le_refl 1) (by simpa using h)
  have hpos : 0 < (natChars n).length := List.length_pos.mpr (natChars_ne_nil n)
  omega

lemma natChars_length_eq_two (n : ℕ) (h1 : 10 ≤ n) (h2 : n < 100) :
    (natChars n).length = 2 := by
  rw [natChars, if_neg (by omega), List.length_reverse, List.length_map,
    Nat.digits_len 10 n (by norm_num) (by omega),
    Nat.log_eq_of_pow_le_of_lt_pow (show 10 ^ 1 ≤ n by simpa using h1)
      (show n < 10 ^ (1 + 1) by norm_num; omega)]

lemma parseFloat_digits (wn : ℕ) (frac : Str) (F : ℕ)
    (hdig : ∀ ch ∈ frac, isDigitC ch = true)
    (hparse : parseNat frac = some F) :
    parseFloat (natChars wn ++ '.' :: frac) =
      some ((wn : ℚ) + (F : ℚ) / 10 ^ frac.length) := by
  obtain ⟨c0, cs0, hc0, hdig0⟩ := natChars_head_digit wn
  have hc' : c0 ≠ '-' := isDigitC_ne_dash c0 hdig0
  have hhead : (natChars wn ++ '.' :: frac : Str).head? = some c0 := by
    rw [hc0]; rfl
  have hsplit : splitOnC '.' (natChars wn ++ '.' :: frac) =
      [natChars wn, frac] := by
    rw [splitOnC_append _ _ _ (not_mem_natChars wn '.' (by decide)),
      splitOnC_of_not_mem _ _ (fun hm => absurd (hdig '.' hm) (by decide))]
  simp only [parseFloat, hhead, Option.some.injEq, hc', if_false, hsplit,
    parseNat_natChars wn, hparse, one_mul]

lemma parseFloat_floatChars (q : ℚ) (hq : 0 ≤ q) (hden : (q * 100).den = 1) :
    parseFloat (floatChars q) = some q := by
  have habs : |q| = q := abs_of_nonneg hq
  have hfl0 : (0:ℤ) ≤ ⌊q⌋ := Int.floor_nonneg.mpr hq
  have hwz : (((⌊|q|⌋).toNat : ℤ)) = ⌊q⌋ := by
    rw [habs, Int.toNat_of_nonneg hfl0]
  set w : ℕ := (⌊|q|⌋).toNat with hw
  have hnum : (((q * 100).num : ℚ)) = q * 100 := (Rat.den_eq_one_iff _).mp hden
  set C : ℤ := (q * 100).num - 100 * ⌊q⌋ with hC
  have hCfr : ((C : ℚ)) = (q - ⌊q⌋) * 100 := by
    rw [hC]
    push_cast
    rw [hnum]
    ring
  have hfr0 : (0:ℚ) ≤ (q - ⌊q⌋) * 100 :=
    mul_nonneg (by linarith [Int.floor_le q]) (by norm_num)
  have hfr1 : (q - ⌊q⌋) * 100 < 100 := by
    have h1 : q - ⌊q⌋ < 1 := by linarith [Int.lt_floor_add_one q]
    calc (q - ⌊q⌋) * 100 < 1 * 100 :=
          mul_lt_mul_of_pos_right h1 (by norm_num)
    _ = 100 := by norm_num
  have hC0 : 0 ≤ C := by exact_mod_cast hCfr ▸ hfr0
  have hC100 : C < 100 := by exact_mod_cast hCfr ▸ hfr1
  have hfloorC : ⌊(|q| - ⌊|q|⌋) * 100⌋ = C := by
    rw [habs, ← hCfr, Int.floor_intCast]
  set c : ℕ := (⌊(|q| - ⌊|q|⌋) * 100⌋).toNat with hc
  have hcC : (c : ℤ) = C := by rw [hc, hfloorC, Int.toNat_of_nonneg hC0]
  have hclt : c < 100 := by omega
  have hkey : q = (w : ℚ) + (c : ℚ) / 100 := by
    have h2 : ((c : ℚ)) = (q - (w : ℚ)) * 100 := by
      rw [show ((c : ℚ)) = ((C : ℚ)) by exact_mod_cast hcC, hCfr,
        show (((⌊q⌋ : ℤ)) : ℚ) = (w : ℚ) by exact_mod_cast hwz.symm]
    rw [h2]
    ring
  have hshape : floatChars q = natChars w ++ '.' ::
      (if c = 0 then ['0'] else if c % 10 = 0 then natChars (c / 10)
       else if c < 10 then '0' :: natChars c else natChars c) := by
    simp only [floatChars, if_neg (not_lt.mpr hq), List.nil_append, ← hw, ← hc]
  rw [hshape]
  by_cases h0 : c = 0
  · rw [if_pos h0,
      parseFloat_digits w ['0'] 0
        (by intro ch hm; rw [List.mem_singleton] at hm; rw [hm]; rfl) rfl]
    have : (w : ℚ) + ((0 : ℕ) : ℚ) / 10 ^ (['0'] : Str).length = q := by
      rw [hkey, h0]
      norm_num
    rw [this]
  · rw [if_neg h0]
    by_cases h10 : c % 10 = 0
    · rw [if_pos h10,
        parseFloat_digits w (natChars (c / 10)) (c / 10)
          (fun ch hm => mem_natChars_digit _ ch hm) (parseNat_natChars _)]
      have hlen1 : (natChars (c / 10)).length = 1 :=
        natChars_length_eq_one (c / 10) (by omega)
      have hcast : (c : ℚ) = ((c / 10 : ℕ) : ℚ) * 10 := by
        exact_mod_cast (Nat.div_mul_cancel (Nat.dvd_of_mod_eq_zero h10)).symm
      have : (w : ℚ) + ((c / 10 : ℕ) : ℚ) / 10 ^ (natChars (c / 10)).length = q := by
        rw [hlen1, hkey, hcast]
        ring
      rw [this]
    · rw [if_neg h10]
      by_cases hlt : c < 10
      · rw [if_pos hlt]
        have hfrac : ('0' :: natChars c : Str) =
            List.replicate 1 '0' ++ natChars c := rfl
        rw [parseFloat_digits w ('0' :: natChars c) c
          (by
            intro ch hm
            rcases List.mem_cons.mp hm with h | h
            · rw [h]; rfl
            · exact mem_natChars_digit _ ch h)
          (by rw [hfrac, parseNat_replicate_zero])]
        have hlen : ('0' :: natChars c : Str).length = 2 := by
          rw [List.length_cons, natChars_length_eq_one c hlt]
        have : (w : ℚ) + (c : ℚ) / 10 ^ ('0' :: natChars c : Str).length = q := by
          rw [hlen, hkey]
          norm_num
        rw [this]
      · rw [if_neg hlt,
          parseFloat_digits w (natChars c) c
            (fun ch hm => mem_natChars_digit _ ch hm) (parseNat_natChars _)]
        have hlen : (natChars c).length = 2 :=
          natChars_length_eq_two c (by omega) hclt
        have : (w : ℚ) + (c : ℚ) / 10 ^ (natChars c).length = q := by
          rw [hlen, hkey]
          norm_num
        rw [this]

lemma splitOnC_to_csv_row (s : DailyStats) :
    splitOnC ',' s.to_csv_row =
      [s.date.iso, natChars s.count, intChars s.min_price,
       intChars s.max_price, floatChars s.mean_price,
       floatChars s.median_price] := by
  rw [DailyStats.to_csv_row,
    splitOnC_append _ _ _ (not_mem_iso s.date ',' (by decide) (by decide)),
    splitOnC_append _ _ _ (not_mem_natChars s.count ',' (by decide)),
    splitOnC_append _ _ _ (not_mem_intChars s.min_price ',' (by decide) (by decide)),
    splitOnC_append _ _ _ (not_mem_intChars s.max_price ',' (by decide) (by decide)),
    splitOnC_append _ _ _ (not_mem_comma_floatChars s.mean_price),
    splitOnC_of_not_mem _ _ (not_mem_comma_floatChars s.median_price)]

/-- C8: appending to a fresh (nonexistent) or empty store writes the fixed
header row `date,count,min,max,mean,median` first and then the stats row,
whose comma-split fields are the six values rendered in that fixed order;
parsing the six fields back recovers the original date, count, min, max,
mean and median (mean/median are the exact non-negative two-decimal values
that `from_prices` produces for positive prices). -/
theorem C8_store_round_trip (stats : DailyStats)
    (hme0 : 0 ≤ stats.mean_price) (hme : (stats.mean_price * 100).den = 1)
    (hmd0 : 0 ≤ stats.median_price) (hmd : (stats.median_price * 100).den = 1) :
    append_to_csv none stats = [csvHeader, stats.to_csv_row] ∧
    append_to_csv (some []) stats = [csvHeader, stats.to_csv_row] ∧
    splitOnC ',' stats.to_csv_row =
      [stats.date.iso, natChars stats.count, intChars stats.min_price,
       intChars stats.max_price, floatChars stats.mean_price,
       floatChars stats.median_price] ∧
    parseRow stats.to_csv_row = some (stats.date, stats.count,
      stats.min_price, stats.max_price, stats.mean_price,
      stats.median_price) := by
  refine ⟨rfl, by simp [append_to_csv], splitOnC_to_csv_row stats, ?_⟩
  simp only [parseRow, splitOnC_to_csv_row, parseDate_iso, parseNat_natChars,
    parseInt_intChars, parseFloat_floatChars stats.mean_price hme0 hme,
    parseFloat_floatChars stats.median_price hmd0 hmd]

/-- Witness for C8: the scenario row (date 2025-10-12, count 4, min 100,
max 300, mean 200.0, median 200.0) is appended after the header and parses
back to its original values. -/
theorem C8_store_round_trip_witness :
    (0:ℚ) ≤ 200 ∧ ((200 : ℚ) * 100).den = 1 ∧
    append_to_csv none ⟨⟨2025, 10, 12⟩, 4, 100, 300, 200, 200⟩ =
      [csvHeader, DailyStats.to_csv_row ⟨⟨2025, 10, 12⟩, 4, 100, 300, 200, 200⟩] ∧
    parseRow (DailyStats.to_csv_row ⟨⟨2025, 10, 12⟩, 4, 100, 300, 200, 200⟩) =
      some (⟨2025, 10, 12⟩, 4, 100, 300, 200, 200) := by
  have hden : ((200 : ℚ) * 100).den = 1 := by
    rw [show (200 : ℚ) * 100 = ((20000 : ℤ) : ℚ) by norm_num, Rat.den_intCast]
  have h := C8_store_round_trip ⟨⟨2025, 10, 12⟩, 4, 100, 300, 200, 200⟩
    (by norm_num) hden (by norm_num) hden
  exact ⟨by norm_num, hden, h.1, h.2.2.2⟩

/-- C7: `should_update_today` is true when the store file does not exist;
for an existing file it is false iff some line starts with today's ISO date
string; in particular it is false right after appending today's stats row,
and true when every stored data row bears a different (valid) date. -/
theorem C7_should_update_today :
    (∀ today : Date, should_update_today none today = true) ∧
    (∀ (today : Date) (lines : List Str),
      (should_update_today (some lines) today = false ↔
        ∃ l ∈ lines, today.iso <+: l)) ∧
    (∀ (today : Date) (stats : DailyStats) (store : Option (List Str)),
      stats.date = today →
      should_update_today (some (append_to_csv store stats)) today = false) ∧
    (∀ (today : Date) (rows : List Str), ValidDate today →
      (∀ r ∈ rows, ∃ st : DailyStats, ValidDate st.date ∧ st.date ≠ today ∧
        r = st.to_csv_row) →
      should_update_today (some (csvHeader :: rows)) today = true) := by
  refine ⟨fun today => rfl, fun today lines => ?_,
    fun today stats store hdate => ?_, fun today rows hv hrows => ?_⟩
  · rw [should_update_today, Bool.not_eq_false', List.any_eq_true]
    simp only [List.isPrefixOf_iff_prefix]
  · have hrow : stats.to_csv_row ∈ append_to_csv store stats := by
      cases store with
      | none => simp [append_to_csv]
      | some lines =>
        show stats.to_csv_row ∈
          if lines = [] then [csvHeader, stats.to_csv_row]
          else lines ++ [stats.to_csv_row]
        split_ifs <;> simp
    have hpre : today.iso.isPrefixOf stats.to_csv_row = true :=
      List.isPrefixOf_iff_prefix.mpr
        (by rw [DailyStats.to_csv_row, hdate]; exact List.prefix_append _ _)
    have hany : (append_to_csv store stats).any
        (fun l => today.iso.isPrefixOf l) = true :=
      List.any_eq_true.mpr ⟨_, hrow, hpre⟩
    rw [should_update_today, hany]
    rfl
  · have hany : (csvHeader :: rows).any
        (fun l => today.iso.isPrefixOf l) = false := by
      rw [List.any_eq_false]
      intro l hl
      rcases List.mem_cons.mp hl with rfl | hmem
      · intro hpref
        obtain ⟨c, cs, hiso, hdig⟩ := iso_head_digit today
        rw [List.isPrefixOf_iff_prefix] at hpref
        obtain ⟨t, ht⟩ := hpref
        rw [hiso, List.cons_append] at ht
        have hH : csvHeader = 'd' :: "ate,count,min,max,mean,median".toList := rfl
        rw [hH] at ht
        have hc : c = 'd' := (List.cons.inj ht).1
        rw [hc] at hdig
        exact absurd hdig (by decide)
      · intro hpref
        obtain ⟨st, hstv, hstne, rfl⟩ := hrows l hmem
        rw [List.isPrefixOf_iff_prefix] at hpref
        obtain ⟨t, ht⟩ := hpref
        rw [DailyStats.to_csv_row] at ht
        have hlen : today.iso.length = st.date.iso.length := by
          rw [iso_length today hv, iso_length st.date hstv]
        exact hstne ((iso_inj today st.date (List.append_inj ht hlen).1).symm)
    rw [should_update_today, hany]
    rfl

/-- Witness for C7: true for a missing store, false right after appending
today's row to a fresh store, true when the only data row is yesterday's. -/
theorem C7_should_update_today_witness :
    should_update_today none ⟨2025, 10, 12⟩ = true ∧
    should_update_today
      (some (append_to_csv none ⟨⟨2025, 10, 12⟩, 1, 5, 5, 5, 5⟩))
      ⟨2025, 10, 12⟩ = false ∧
    should_update_today
      (some (csvHeader :: [DailyStats.to_csv_row ⟨⟨2025, 10, 11⟩, 1, 5, 5, 5, 5⟩]))
      ⟨2025, 10, 12⟩ = true := by
  refine ⟨C7_should_update_today.1 ⟨2025, 10, 12⟩,
    C7_should_update_today.2.2.1 ⟨2025, 10, 12⟩ ⟨⟨2025, 10, 12⟩, 1, 5, 5, 5, 5⟩ none rfl,
    C7_should_update_today.2.2.2 ⟨2025, 10, 12⟩ _ (by decide) ?_⟩
  intro r hr
  rw [List.mem_singleton] at hr
  exact ⟨⟨⟨2025, 10, 11⟩, 1, 5, 5, 5, 5⟩, by decide, by decide, hr⟩

/-- C1: for a non-empty price list, `from_prices` returns a stats row with
the given date, the list length as count, the list minimum and maximum as
min/max, the arithmetic mean rounded to two decimals as mean, and the
standard statistical median (middle of a sorted permutation, averaging the
two middle values for even length) rounded to two decimals as median. -/
theorem C1_from_prices_correct (d : Date) (P : List ℤ) (h : P ≠ []) :
    ∃ s, DailyStats.from_prices d P = .ok s ∧
      s.date = d ∧ s.count = P.length ∧
      s.min_price ∈ P ∧ (∀ x ∈ P, s.min_price ≤ x) ∧
      s.max_price ∈ P ∧ (∀ x ∈ P, x ≤ s.max_price) ∧
      s.mean_price = round2 ((P.sum : ℚ) / (P.length : ℚ)) ∧
      ∃ L : List ℤ, L.Perm P ∧ L.Sorted (· ≤ ·) ∧
        s.median_price = round2 (
          if L.length % 2 = 1 then ((L.getD (L.length / 2) 0 : ℤ) : ℚ)
          else ((L.getD (L.length / 2 - 1) 0 + L.getD (L.length / 2) 0 : ℤ) : ℚ) / 2) := by
  refine ⟨⟨d, P.length, pyMin P, pyMax P, round2 (meanQ P), round2 (medianQ P)⟩,
    by rw [DailyStats.from_prices, if_neg h], rfl, rfl,
    pyMin_mem P h, fun x hx => pyMin_le P x hx,
    pyMax_mem P h, fun x hx => le_pyMax P x hx,
    by rw [meanQ, List.sum_eq_foldl],
    sortedAsc P, List.perm_insertionSort _ P,
    List.sorted_insertionSort _ P, by rw [medianQ]⟩

/-- Witness for C1: the spec scenario `[100, 200, 200, 300]` gives count 4,
min 100, max 300, mean 200.0 and median 200.0. -/
theorem C1_from_prices_correct_witness :
    ([100, 200, 200, 300] : List ℤ) ≠ [] ∧
    ∃ s, DailyStats.from_prices ⟨2025, 10, 12⟩ [100, 200, 200, 300] = .ok s ∧
      s.count = 4 ∧ s.min_price = 100 ∧ s.max_price = 300 ∧
      s.mean_price = 200 ∧ s.median_price = 200 := by
  refine ⟨by simp, ?_⟩
  obtain ⟨s, hs, hdate, hcount, hminmem, hminle, hmaxmem, hmaxle, hmean, L, hperm, hsort, hmed⟩ :=
    C1_from_prices_correct ⟨2025, 10, 12⟩ [100, 200, 200, 300] (by simp)
  have hL : L = [100, 200, 200, 300] :=
    List.eq_of_perm_of_sorted hperm hsort (by decide)
  have h200 := round2_intCast 200
  norm_num at h200
  refine ⟨s, hs, by simpa using hcount, ?_, ?_, ?_, ?_⟩
  · have h1 := hminle 100 (by simp)
    simp only [List.mem_cons, List.not_mem_nil, or_false] at hminmem
    rcases hminmem with h | h | h | h <;> omega
  · have h1 := hmaxle 300 (by simp)
    simp only [List.mem_cons, List.not_mem_nil, or_false] at hmaxmem
    rcases hmaxmem with h | h | h | h <;> omega
  · rw [hmean]
    norm_num
    exact h200
  · rw [hmed, hL]
    norm_num
    exact h200

/-- C10: the stats row built from a non-empty list of positive prices has
count at least 1 and its rounded mean and median both lie between min_price
and max_price. -/
theorem C10_stats_invariants (d : Date) (P : List ℤ) (h : P ≠ [])
    (hpos : ∀ x ∈ P, 0 < x) :
    ∃ s, DailyStats.from_prices d P = .ok s ∧ 1 ≤ s.count ∧
      (s.min_price : ℚ) ≤ s.median_price ∧ s.median_price ≤ (s.max_price : ℚ) ∧
      (s.min_price : ℚ) ≤ s.mean_price ∧ s.mean_price ≤ (s.max_price : ℚ) := by
  refine ⟨⟨d, P.length, pyMin P, pyMax P, round2 (meanQ P), round2 (medianQ P)⟩,
    by rw [DailyStats.from_prices, if_neg h], List.length_pos.mpr h, ?_, ?_, ?_, ?_⟩
  · exact intCast_le_round2 _ _ (le_medianQ P (pyMin P) h (pyMin_le P))
  · exact round2_le_intCast _ _ (medianQ_le P (pyMax P) h (le_pyMax P))
  · exact intCast_le_round2 _ _ (le_meanQ P (pyMin P) h (pyMin_le P))
  · exact round2_le_intCast _ _ (meanQ_le P (pyMax P) h (le_pyMax P))

/-- Witness for C10: the invariants hold at `[100, 200, 200, 300]`. -/
theorem C10_stats_invariants_witness :
    ([100, 200, 200, 300] : List ℤ) ≠ [] ∧
    (∀ x ∈ ([100, 200, 200, 300] : List ℤ), 0 < x) ∧
    ∃ s, DailyStats.from_prices ⟨2025, 10, 12⟩ [100, 200, 200, 300] = .ok s ∧
      1 ≤ s.count ∧
      (s.min_price : ℚ) ≤ s.median_price ∧ s.median_price ≤ (s.max_price : ℚ) ∧
      (s.min_price : ℚ) ≤ s.mean_price ∧ s.mean_price ≤ (s.max_price : ℚ) :=
  ⟨by simp, by decide,
    C10_stats_invariants ⟨2025, 10, 12⟩ [100, 200, 200, 300] (by simp) (by decide)⟩

lemma make_request_ok (resp : ℕ → ApiResponse) (start : ℕ) :
    make_request (fun k => .ok (resp k)) start = ⟨.ok (resp start), [], 1⟩ := by
  simp [make_request, MAX_RETRIES, makeRequestGo]

/-- C6: `fetch_all` learns the total from the offset-0 request, returns
empty at once when the total is 0, and otherwise pages through offsets
0, 50, 100, ... until the offset reaches the total, sleeping the fixed
inter-request delay before every page after the first; for total 120 it
issues exactly the three page requests at offsets 0, 50 and 100 and returns
the pages' parsed listings, where parsing keeps exactly the items with an
extractable price and a price parameter's value is truncated to an
integer. -/
theorem C6_fetch_all_pagination (resp : ℕ → ApiResponse)
    (htotal : get_total_count (resp 0) = 120) :
    fetch_all (fun k => .ok (resp k)) =
      ⟨.ok (parse_listings (resp 0) ++
          (parse_listings (resp 1) ++ parse_listings (resp 2))),
       [0, 50, 100], [REQUEST_DELAY, REQUEST_DELAY]⟩ ∧
    (∀ resp0 : ℕ → ApiResponse, get_total_count (resp0 0) = 0 →
      fetch_all (fun k => .ok (resp0 k)) = ⟨.ok [], [0], []⟩) ∧
    (∀ (items : List Item) (t : Option ℕ),
      parse_listings ⟨some (.success items t)⟩ =
        items.filterMap fun it => (extract_price it.params).map (mkListing it)) ∧
    (∀ (pv : ℚ) (rest : List ApiParam),
      extract_price (⟨"price", some ⟨"PriceParam", some pv⟩⟩ :: rest) =
        some (pyTrunc pv)) := by
  have h150 : fetchLoop (fun k => .ok (resp k)) 120 150 3 = ⟨.ok [], [], []⟩ := by
    rw [fetchLoop]
    norm_num
  have h100 : fetchLoop (fun k => .ok (resp k)) 120 100 2 =
      ⟨.ok (parse_listings (resp 2)), [100], [REQUEST_DELAY]⟩ := by
    rw [fetchLoop]
    simp [make_request_ok, ITEMS_PER_PAGE, h150, Except.map]
  have h50 : fetchLoop (fun k => .ok (resp k)) 120 50 1 =
      ⟨.ok (parse_listings (resp 1) ++ parse_listings (resp 2)),
       [50, 100], [REQUEST_DELAY, REQUEST_DELAY]⟩ := by
    rw [fetchLoop]
    simp [make_request_ok, ITEMS_PER_PAGE, h100, Except.map]
  refine ⟨?_, ?_, fun items t => rfl, fun pv rest => rfl⟩
  · simp only [fetch_all, make_request_ok, htotal, ITEMS_PER_PAGE]
    norm_num [h50, Except.map]
  · intro resp0 h0
    simp only [fetch_all, make_request_ok, h0]
    rfl

/-- Witness for C6: a remote that reports total 120 with no items on every
page gets exactly three page requests, at offsets 0, 50 and 100, with two
inter-request delays. -/
theorem C6_fetch_all_pagination_witness :
    get_total_count ((fun _ : ℕ =>
      (⟨some (.success [] (some 120))⟩ : ApiResponse)) 0) = 120 ∧
    fetch_all (fun _ : ℕ => .ok (⟨some (.success [] (some 120))⟩ : ApiResponse)) =
      ⟨.ok [], [0, 50, 100], [REQUEST_DELAY, REQUEST_DELAY]⟩ := by
  have h := (C6_fetch_all_pagination
    (fun _ => ⟨some (.success [] (some 120))⟩) rfl).1
  refine ⟨rfl, ?_⟩
  rw [h]
  simp [parse_listings]

/-- C9: when `fetch_all` came back empty for a product, the per-product
step of `main` skips it without erroring: the store file is unchanged, no
row is appended and no dashboard chart is requested. -/
theorem C9_empty_fetch_skips_product (today : Date)
    (store : Option (List Str)) :
    processProduct today store [] = .ok ⟨store, false, false⟩ := by
  cases h : should_update_today store today <;>
    simp [processProduct, h]

end AeronMiller
